import Mathlib

/-!
Verification of the entity-sync model and rich-content converter of the
python-polarion client library.

The embedding below translates the relevant Python code into Lean:

* `SyncState`, `buildUpdate`, `saveRun` embed `Workitem.save` /
  `Plan.save` (workitem.py lines 491-505, plan.py lines 152-166): both
  methods are structurally identical — iterate the keys of the loaded
  record, compare the live attribute against the deep-copied snapshot,
  collect changed keys into a dict, add the uri, send one update RPC and
  reload only on success.
* `newWorkitemInit` embeds the construct-new branch of
  `Workitem.__init__` (workitem.py lines 60-85).
* The `RelCall` trace definitions embed the relationship-mutating
  operations (`addLinkedItem`, `removeLinkedItem`, `moveToDocument`,
  `addToPlan`, `removeFromPlan`, `addAssignee`, `removeAssignee`).
* `setCustomField` embeds `CustomFields.setCustomField`
  (base/custom_fields.py lines 16-39).
* `PState`, `step`, `feed` embed `DescriptionParser` (utils.py): the
  HTML tokenizer of the standard library is external, so a document is
  given as its text together with its token events; the XML re-parse
  (`xml.etree.ElementTree.XML`) and the grid renderer (`texttable`) are
  third-party collaborators and enter as parameters of `ConvEnv`.

Python dicts are modelled as association lists with assignment semantics
(update in place when the key exists, append otherwise), exceptions as
`Except`/`Option`, and remote RPC activity as explicit call traces.
-/

namespace Spec2Proof

section Sync

variable {α : Type} {ε : Type}

/-- Keys of a Python dict modelled as an association list. -/
def dkeys (m : List (String × α)) : List String := m.map Prod.fst

/-- Overwrite the value stored at the first entry whose key is `k`
(Python mutates the found entry object in place). -/
def updateFirst (l : List (String × α)) (k : String) (v : α) : List (String × α) :=
  match l with
  | [] => []
  | p :: rest => if p.1 = k then (p.1, v) :: rest else p :: updateFirst rest k v

/-- Python dict assignment `m[k] = v`: overwrite in place when the key is
present, append at the end otherwise (dict keys are unique, so updating
the first occurrence is dict assignment). -/
def dictInsert (m : List (String × α)) (k : String) (v : α) : List (String × α) :=
  if k ∈ dkeys m then updateFirst m k v else m ++ [(k, v)]

/-- The state of a loaded entity: the flattened key set of the remote
record (`self._polarion_item.__dict__` groups flattened), the live local
attribute values (`getattr(self, key)`) and the snapshot values
(`getattr(self._original_polarion, key)`). -/
structure SyncState (α : Type) where
  fieldKeys : List String
  localVal : String → α
  snapVal : String → α

/-- The dict `updated_item` built by the loop at the top of
`Workitem.save` / `Plan.save`: for each record key whose live value
differs from the snapshot value, `updated_item[key] = current_value`. -/
def buildUpdate [DecidableEq α] (s : SyncState α) : List (String × α) :=
  s.fieldKeys.foldl
    (fun m k => if s.localVal k ≠ s.snapVal k then dictInsert m k (s.localVal k) else m) []

/-- The set of field names whose live value differs from the snapshot. -/
def diffKeys [DecidableEq α] (s : SyncState α) : List String :=
  s.fieldKeys.filter (fun k => decide (s.localVal k ≠ s.snapVal k))

/-- Remote calls issued by `save`: the single update RPC
(`service.updateWorkItem` / `service.updatePlan`) with its payload, and
the refetch performed by `_reloadFromPolarion`. -/
inductive SaveCall (α : Type) where
  | update (payload : List (String × α))
  | reloadFetch
deriving DecidableEq

/-- Extract the payloads of the update RPCs from a call trace. -/
def updatePayloads : List (SaveCall α) → List (List (String × α))
  | [] => []
  | SaveCall.update p :: t => p :: updatePayloads t
  | SaveCall.reloadFetch :: t => updatePayloads t

/-- One run of `Workitem.save` / `Plan.save`.  `upd` is the remote update
RPC (it may fault), `reloaded` is the state produced by
`_reloadFromPolarion` after a successful update.  Returns the propagated
fault (if any), the entity state held by the caller afterwards, and the
trace of remote calls. -/
def saveRun [DecidableEq α] (s : SyncState α) (upd : List (String × α) → Except ε Unit)
    (reloaded : SyncState α) : Option ε × SyncState α × List (SaveCall α) :=
  let u := buildUpdate s
  if 0 < u.length then
    let payload := dictInsert u "uri" (s.localVal "uri")
    match upd payload with
    | Except.error e => (some e, s, [SaveCall.update payload])
    | Except.ok _ => (none, reloaded, [SaveCall.update payload, SaveCall.reloadFetch])
  else (none, s, [])

theorem dkeys_updateFirst (m : List (String × α)) (k : String) (v : α) :
    dkeys (updateFirst m k v) = dkeys m := by
  induction m with
  | nil => rfl
  | cons p rest ih =>
    by_cases hp : p.1 = k
    · simp [updateFirst, hp, dkeys]
    · simp [updateFirst, hp, dkeys] at ih ⊢
      exact ih

theorem mem_dkeys_dictInsert {m : List (String × α)} {k x : String} {v : α} :
    x ∈ dkeys (dictInsert m k v) ↔ x = k ∨ x ∈ dkeys m := by
  by_cases hk : k ∈ dkeys m
  · rw [dictInsert, if_pos hk, dkeys_updateFirst]
    constructor
    · exact Or.inr
    · rintro (rfl | hx)
      · exact hk
      · exact hx
  · rw [dictInsert, if_neg hk]
    simp [dkeys, or_comm]

theorem mem_dkeys_buildUpdate_aux [DecidableEq α] (s : SyncState α) (l : List String)
    (m : List (String × α)) (x : String) :
    x ∈ dkeys (l.foldl
      (fun m k => if s.localVal k ≠ s.snapVal k then dictInsert m k (s.localVal k) else m) m) ↔
      x ∈ dkeys m ∨ (x ∈ l ∧ s.localVal x ≠ s.snapVal x) := by
  induction l generalizing m with
  | nil => simp
  | cons k t ih =>
    simp only [List.foldl_cons, ih, List.mem_cons]
    by_cases hd : s.localVal k ≠ s.snapVal k
    · rw [if_pos hd, mem_dkeys_dictInsert]
      constructor
      · rintro ((rfl | hm) | ht)
        · exact Or.inr ⟨Or.inl rfl, hd⟩
        · exact Or.inl hm
        · exact Or.inr ⟨Or.inr ht.1, ht.2⟩
      · rintro (hm | ⟨(rfl | ht), hx⟩)
        · exact Or.inl (Or.inr hm)
        · exact Or.inl (Or.inl rfl)
        · exact Or.inr ⟨ht, hx⟩
    · rw [if_neg hd]
      push_neg at hd
      constructor
      · rintro (hm | ht)
        · exact Or.inl hm
        · exact Or.inr ⟨Or.inr ht.1, ht.2⟩
      · rintro (hm | ⟨(rfl | ht), hx⟩)
        · exact Or.inl hm
        · exact absurd hd hx
        · exact Or.inr ⟨ht, hx⟩

theorem mem_dkeys_buildUpdate [DecidableEq α] {s : SyncState α} {x : String} :
    x ∈ dkeys (buildUpdate s) ↔ x ∈ s.fieldKeys ∧ s.localVal x ≠ s.snapVal x := by
  have h := mem_dkeys_buildUpdate_aux s s.fieldKeys [] x
  simpa [buildUpdate, dkeys] using h

theorem mem_diffKeys [DecidableEq α] {s : SyncState α} {x : String} :
    x ∈ diffKeys s ↔ x ∈ s.fieldKeys ∧ s.localVal x ≠ s.snapVal x := by
  simp [diffKeys, List.mem_filter]

theorem buildUpdate_eq_nil_aux [DecidableEq α] (s : SyncState α) (l : List String)
    (m : List (String × α)) (h : ∀ k ∈ l, s.localVal k = s.snapVal k) :
    l.foldl
      (fun m k => if s.localVal k ≠ s.snapVal k then dictInsert m k (s.localVal k) else m) m = m := by
  induction l generalizing m with
  | nil => rfl
  | cons k t ih =>
    have hk : s.localVal k = s.snapVal k := h k (List.mem_cons_self k t)
    rw [List.foldl_cons, if_neg (not_not_intro hk)]
    exact ih m (fun x hx => h x (List.mem_cons_of_mem k hx))

theorem buildUpdate_eq_nil [DecidableEq α] {s : SyncState α}
    (h : ∀ k ∈ s.fieldKeys, s.localVal k = s.snapVal k) : buildUpdate s = [] :=
  buildUpdate_eq_nil_aux s s.fieldKeys [] h

theorem buildUpdate_length_pos [DecidableEq α] {s : SyncState α} {x : String}
    (hx : x ∈ s.fieldKeys) (hd : s.localVal x ≠ s.snapVal x) :
    0 < (buildUpdate s).length := by
  have hmem : x ∈ dkeys (buildUpdate s) := mem_dkeys_buildUpdate.mpr ⟨hx, hd⟩
  rcases List.mem_map.mp hmem with ⟨p, hp, _⟩
  exact List.length_pos.mpr (List.ne_nil_of_mem hp)

/-- Claim C1: for a loaded entity whose local field values differ from
the post-load snapshot in exactly the (nonempty) set of fields `S`,
`save()` builds an update payload whose keys are exactly `S` plus the
identity key `uri`, and dispatches exactly one update RPC carrying that
payload. -/
theorem save_diff_minimal [DecidableEq α] (s : SyncState α) (S : Finset String)
    (hS : (diffKeys s).toFinset = S) (hne : S.Nonempty)
    (upd : List (String × α) → Except ε Unit) (reloaded : SyncState α) :
    ∃ payload, updatePayloads (saveRun s upd reloaded).2.2 = [payload] ∧
      (dkeys payload).toFinset = insert "uri" S := by
  obtain ⟨x, hxS⟩ := hne
  rw [← hS, List.mem_toFinset, mem_diffKeys] at hxS
  have hlen : 0 < (buildUpdate s).length := buildUpdate_length_pos hxS.1 hxS.2
  have hkeys : (dkeys (dictInsert (buildUpdate s) "uri" (s.localVal "uri"))).toFinset =
      insert "uri" S := by
    ext a
    rw [List.mem_toFinset, mem_dkeys_dictInsert, mem_dkeys_buildUpdate,
      Finset.mem_insert, ← hS, List.mem_toFinset, mem_diffKeys]
  refine ⟨dictInsert (buildUpdate s) "uri" (s.localVal "uri"), ?_, hkeys⟩
  simp only [saveRun]
  rw [if_pos hlen]
  cases upd (dictInsert (buildUpdate s) "uri" (s.localVal "uri")) with
  | error e => simp [updatePayloads]
  | ok u => simp [updatePayloads]

/-- Concrete loaded entity used by the witnesses: the `title` field was
mutated locally, `status` and `uri` still match the snapshot. -/
def exDirty : SyncState Nat :=
  { fieldKeys := ["title", "status", "uri"]
    localVal := fun k => if k = "title" then 1 else if k = "uri" then 7 else 0
    snapVal := fun k => if k = "uri" then 7 else 0 }

theorem save_diff_minimal_witness :
    ((diffKeys exDirty).toFinset = {"title"} ∧ Finset.Nonempty {"title"}) ∧
    ∃ payload,
      updatePayloads (saveRun exDirty (fun _ => (Except.ok () : Except Unit Unit)) exDirty).2.2 =
        [payload] ∧
      (dkeys payload).toFinset = insert "uri" {"title"} :=
  ⟨⟨by decide, Finset.singleton_nonempty _⟩,
    save_diff_minimal exDirty {"title"} (by decide) (Finset.singleton_nonempty _)
      (fun _ => Except.ok ()) exDirty⟩

/-- Claim C2: for an entity that has been loaded and then has no field
mutated, `save()` performs no update RPC and no reload: it is a complete
no-op with an empty remote-call trace and unchanged local state. -/
theorem save_noop_when_clean [DecidableEq α] (s : SyncState α)
    (upd : List (String × α) → Except ε Unit) (reloaded : SyncState α)
    (h : ∀ k ∈ s.fieldKeys, s.localVal k = s.snapVal k) :
    saveRun s upd reloaded = (none, s, []) := by
  have hb : buildUpdate s = [] := buildUpdate_eq_nil h
  simp [saveRun, hb]

/-- Concrete loaded entity with no local mutation. -/
def exClean : SyncState Nat :=
  { fieldKeys := ["title", "uri"], localVal := fun _ => 0, snapVal := fun _ => 0 }

theorem save_noop_when_clean_witness :
    (∀ k ∈ exClean.fieldKeys, exClean.localVal k = exClean.snapVal k) ∧
    saveRun exClean (fun _ => (Except.ok () : Except Unit Unit)) exClean = (none, exClean, []) :=
  ⟨fun _ _ => rfl,
    save_noop_when_clean exClean (fun _ => Except.ok ()) exClean (fun _ _ => rfl)⟩

/-- Claim C3: when the update RPC dispatched by `save()` faults, the
error propagates to the caller, the entity state the caller holds is
exactly the pre-save state (diff and payload were built before dispatch),
and no reload fetch is issued (reload runs only after a successful
update). -/
theorem save_fault_leaves_state [DecidableEq α] (s : SyncState α)
    (upd : List (String × α) → Except ε Unit) (reloaded : SyncState α) (e : ε)
    (hchanged : 0 < (buildUpdate s).length)
    (hfault : upd (dictInsert (buildUpdate s) "uri" (s.localVal "uri")) = Except.error e) :
    saveRun s upd reloaded =
      (some e, s, [SaveCall.update (dictInsert (buildUpdate s) "uri" (s.localVal "uri"))]) ∧
    SaveCall.reloadFetch ∉ (saveRun s upd reloaded).2.2 := by
  have h1 : saveRun s upd reloaded =
      (some e, s, [SaveCall.update (dictInsert (buildUpdate s) "uri" (s.localVal "uri"))]) := by
    simp only [saveRun]
    rw [if_pos hchanged, hfault]
  refine ⟨h1, ?_⟩
  rw [h1]
  simp

theorem save_fault_leaves_state_witness :
    (0 < (buildUpdate exDirty).length ∧
      (fun _ : List (String × Nat) => (Except.error 42 : Except Nat Unit))
        (dictInsert (buildUpdate exDirty) "uri" (exDirty.localVal "uri")) = Except.error 42) ∧
    (saveRun exDirty (fun _ => (Except.error 42 : Except Nat Unit)) exDirty =
        (some 42, exDirty,
          [SaveCall.update (dictInsert (buildUpdate exDirty) "uri" (exDirty.localVal "uri"))]) ∧
      SaveCall.reloadFetch ∉
        (saveRun exDirty (fun _ => (Except.error 42 : Except Nat Unit)) exDirty).2.2) :=
  ⟨⟨by decide, rfl⟩,
    save_fault_leaves_state exDirty (fun _ => Except.error 42) exDirty 42 (by decide) rfl⟩

end Sync

section NewWorkitem

variable {α : Type}

/-- Remote calls issued by the construct-new branch of
`Workitem.__init__`. -/
inductive WICall where
  | getInitialAction
  | createWorkItem
  | getByUri
deriving DecidableEq

/-- Failures raised by the construct-new branch. -/
inductive InitErr where
  | missingRequired (required : List String)
  | fieldNotRecognised (field : String)
deriving DecidableEq

/-- The assignment loop `for new_field in new_workitem_fields:` of
`Workitem.__init__` — the first supplied field name that is not an
attribute of the empty workitem record raises. -/
def assignLoop (recognized : List String) : List (String × α) → Option InitErr
  | [] => none
  | (k, _) :: rest =>
    if k ∈ recognized then assignLoop recognized rest else some (InitErr.fieldNotRecognised k)

/-- The construct-new branch of `Workitem.__init__` (workitem.py lines
60-85).  `required` is `required_features.requiredFeatures` returned by
`getInitialWorkflowActionForProjectAndType` (`none` when the server
declares none), `newFields` is `new_workitem_fields`, `recognized` is the
attribute set of the empty workitem record.  Returns the outcome together
with the trace of remote calls issued. -/
def newWorkitemInit (required : Option (List String))
    (newFields : Option (List (String × α))) (recognized : List String) :
    Except InitErr Unit × List WICall :=
  let pre := [WICall.getInitialAction]
  let assign : Except InitErr Unit × List WICall :=
    match newFields with
    | some fs =>
      match assignLoop recognized fs with
      | some err => (Except.error err, pre)
      | none => (Except.ok (), pre ++ [WICall.createWorkItem, WICall.getByUri])
    | none => (Except.ok (), pre ++ [WICall.createWorkItem, WICall.getByUri])
  match required with
  | some reqs =>
    if newFields.isNone ∨ ¬ ∀ r ∈ reqs, r ∈ (newFields.getD []).map Prod.fst then
      (Except.error (InitErr.missingRequired reqs), pre)
    else assign
  | none => assign

/-- Claim C4: when the server declares a nonempty set of required fields
and the supplied initial values (possibly absent altogether) do not cover
it, construction fails with an error naming the required fields, and no
create RPC is issued. -/
theorem newWorkitem_required_gate (required : Option (List String)) (reqs : List String)
    (newFields : Option (List (String × α))) (recognized : List String)
    (hreq : required = some reqs) (_hne : reqs ≠ [])
    (hmiss : newFields = none ∨ ∃ r ∈ reqs, r ∉ (newFields.getD []).map Prod.fst) :
    (newWorkitemInit required newFields recognized).1 =
      Except.error (InitErr.missingRequired reqs) ∧
    WICall.createWorkItem ∉ (newWorkitemInit required newFields recognized).2 := by
  subst hreq
  have hcond : newFields.isNone = true ∨
      ¬ ∀ r ∈ reqs, r ∈ (newFields.getD []).map Prod.fst := by
    rcases hmiss with h | ⟨r, hr, hnot⟩
    · left
      rw [h]
      rfl
    · right
      push_neg
      exact ⟨r, hr, hnot⟩
  simp only [newWorkitemInit]
  rw [if_pos hcond]
  exact ⟨rfl, by simp⟩

theorem newWorkitem_required_gate_witness :
    ((some ["assignee"] : Option (List String)) = some ["assignee"] ∧
      (["assignee"] : List String) ≠ [] ∧
      ((none : Option (List (String × Nat))) = none ∨
        ∃ r ∈ ["assignee"], r ∉ ((none : Option (List (String × Nat))).getD []).map Prod.fst)) ∧
    ((newWorkitemInit (some ["assignee"]) (none : Option (List (String × Nat))) ["title"]).1 =
        Except.error (InitErr.missingRequired ["assignee"]) ∧
      WICall.createWorkItem ∉
        (newWorkitemInit (some ["assignee"]) (none : Option (List (String × Nat))) ["title"]).2) :=
  ⟨⟨rfl, by decide, Or.inl rfl⟩,
    newWorkitem_required_gate (some ["assignee"]) ["assignee"] none ["title"] rfl
      (by decide) (Or.inl rfl)⟩

end NewWorkitem

section Relations

/-- Remote calls issued by the relationship-mutating operations,
including the reloads of the two objects involved
(`self._reloadFromPolarion()` is `reloadSelf`, the reload of the other
object passed to the operation is `reloadOther`). -/
inductive RelCall where
  | addLinkedRPC
  | removeLinkedRPC
  | addPlanItemsRPC
  | removePlanItemsRPC
  | moveToDocumentRPC
  | addAssigneeRPC
  | removeAssigneeRPC
  | reloadSelf
  | reloadOther
deriving DecidableEq

def RelCall.isReload : RelCall → Bool
  | RelCall.reloadSelf => true
  | RelCall.reloadOther => true
  | _ => false

/-- `Workitem.addLinkedItem`: the link RPC, then reload self, then reload
the other workitem. -/
def addLinkedItemCalls : List RelCall :=
  [RelCall.addLinkedRPC, RelCall.reloadSelf, RelCall.reloadOther]

/-- `Workitem.removeLinkedItem`: with a role, one unlink RPC; without,
one unlink RPC per entry of `linkedWorkItems` and of
`linkedWorkItemsDerived` whose uri matches the given workitem; both
objects reload at the end. -/
def removeLinkedItemCalls (role : Option String) (linkedUris linkedDerivedUris : List String)
    (otherUri : String) : List RelCall :=
  (match role with
   | some _ => [RelCall.removeLinkedRPC]
   | none =>
     (linkedUris.filter (fun u => u = otherUri)).map (fun _ => RelCall.removeLinkedRPC) ++
     (linkedDerivedUris.filter (fun u => u = otherUri)).map
       (fun _ => RelCall.removeLinkedRPC)) ++
  [RelCall.reloadSelf, RelCall.reloadOther]

/-- `Plan.addToPlan`: allowed-type gate, then the add RPC; the workitem
reloads first, then the plan itself. -/
def addToPlanCalls (allowedTypes : List String) (wiType : String) :
    Except String (List RelCall) :=
  if wiType ∈ allowedTypes then
    Except.ok [RelCall.addPlanItemsRPC, RelCall.reloadOther, RelCall.reloadSelf]
  else Except.error "workitem type is not allowed in this plan"

/-- `Plan.removeFromPlan`: the remove RPC, then the workitem reloads,
then the plan itself. -/
def removeFromPlanCalls : List RelCall :=
  [RelCall.removePlanItemsRPC, RelCall.reloadOther, RelCall.reloadSelf]

/-- `Workitem.moveToDocument`: the method body is the single move RPC —
it performs no reload of either entity. -/
def moveToDocumentCalls : List RelCall := [RelCall.moveToDocumentRPC]

/-- `Workitem.addAssignee`: optional removal of each current assignee,
the add RPC, then a reload of the workitem only. -/
def addAssigneeCalls (removeOthers : Bool) (currentAssignees : Nat) : List RelCall :=
  (if removeOthers then List.replicate currentAssignees RelCall.removeAssigneeRPC else []) ++
  [RelCall.addAssigneeRPC, RelCall.reloadSelf]

/-- `Workitem.removeAssignee`: the remove RPC, then a reload of the
workitem only. -/
def removeAssigneeCalls : List RelCall :=
  [RelCall.removeAssigneeRPC, RelCall.reloadSelf]

/-- The call shape demanded by the cross-entity consistency rule: the
mutating RPCs come first and the trace ends by reloading both involved
entities, in either order. -/
def bothReloadAfterMutations (t : List RelCall) : Prop :=
  ∃ muts : List RelCall, (∀ c ∈ muts, c.isReload = false) ∧
    (t = muts ++ [RelCall.reloadSelf, RelCall.reloadOther] ∨
     t = muts ++ [RelCall.reloadOther, RelCall.reloadSelf])

/-- Claim C5 counterexample: `Workitem.moveToDocument` mutates the
workitem-document relationship but reloads neither involved entity — its
remote trace is the single move RPC, so the claimed reload-both rule
fails on it. -/
theorem moveToDocument_no_reload_cex :
    moveToDocumentCalls = [RelCall.moveToDocumentRPC] ∧
    RelCall.reloadSelf ∉ moveToDocumentCalls ∧
    RelCall.reloadOther ∉ moveToDocumentCalls ∧
    ¬ bothReloadAfterMutations moveToDocumentCalls := by
  refine ⟨rfl, by decide, by decide, ?_⟩
  rintro ⟨muts, -, h | h⟩ <;>
  · apply_fun List.length at h
    simp only [moveToDocumentCalls, List.length_append, List.length_cons,
      List.length_singleton] at h
    omega

/-- Claim C5 amended: link/unlink of workitems and add-to-plan /
remove-from-plan reload both involved entities after the mutating RPCs;
assign/unassign reload only the workitem; `moveToDocument` reloads
neither entity. -/
theorem relation_reload_amended :
    bothReloadAfterMutations addLinkedItemCalls ∧
    (∀ role linkedUris linkedDerivedUris otherUri,
      bothReloadAfterMutations
        (removeLinkedItemCalls role linkedUris linkedDerivedUris otherUri)) ∧
    (∀ allowedTypes wiType, wiType ∈ allowedTypes →
      ∃ t, addToPlanCalls allowedTypes wiType = Except.ok t ∧ bothReloadAfterMutations t) ∧
    bothReloadAfterMutations removeFromPlanCalls ∧
    (RelCall.reloadSelf ∉ moveToDocumentCalls ∧ RelCall.reloadOther ∉ moveToDocumentCalls) ∧
    (∀ removeOthers currentAssignees,
      RelCall.reloadSelf ∈ addAssigneeCalls removeOthers currentAssignees ∧
      RelCall.reloadOther ∉ addAssigneeCalls removeOthers currentAssignees) ∧
    (RelCall.reloadSelf ∈ removeAssigneeCalls ∧
      RelCall.reloadOther ∉ removeAssigneeCalls) := by
  refine ⟨⟨[RelCall.addLinkedRPC], by decide, Or.inl rfl⟩, ?_, ?_, ?_, ?_, ?_, ?_⟩
  · intro role linkedUris linkedDerivedUris otherUri
    cases role with
    | some r => exact ⟨[RelCall.removeLinkedRPC], by decide, Or.inl rfl⟩
    | none =>
      refine ⟨(linkedUris.filter (fun u => u = otherUri)).map
          (fun _ => RelCall.removeLinkedRPC) ++
        (linkedDerivedUris.filter (fun u => u = otherUri)).map
          (fun _ => RelCall.removeLinkedRPC), ?_, Or.inl rfl⟩
      intro c hc
      rcases List.mem_append.mp hc with h | h <;>
      · rcases List.mem_map.mp h with ⟨u, -, rfl⟩
        rfl
  · intro allowedTypes wiType h
    refine ⟨[RelCall.addPlanItemsRPC, RelCall.reloadOther, RelCall.reloadSelf], ?_,
      ⟨[RelCall.addPlanItemsRPC], by decide, Or.inr rfl⟩⟩
    rw [addToPlanCalls, if_pos h]
  · exact ⟨[RelCall.removePlanItemsRPC], by decide, Or.inr rfl⟩
  · exact ⟨by decide, by decide⟩
  · intro removeOthers currentAssignees
    cases removeOthers <;>
      simp [addAssigneeCalls, List.mem_append, List.mem_replicate]
  · exact ⟨by decide, by decide⟩

theorem relation_reload_amended_witness :
    (("task" : String) ∈ ["task"] ∧
      ∃ t, addToPlanCalls ["task"] "task" = Except.ok t ∧ bothReloadAfterMutations t) ∧
    bothReloadAfterMutations (removeLinkedItemCalls none ["u1", "u2"] ["u1"] "u1") :=
  ⟨⟨by decide, relation_reload_amended.2.2.1 ["task"] "task" (by decide)⟩,
    relation_reload_amended.2.1 none ["u1", "u2"] ["u1"] "u1"⟩

end Relations

section CustomFieldsModel

variable {α : Type}

/-- The `self.save()` call performed at the end of a successful
`setCustomField`. -/
inductive CFCall where
  | saveEntity
deriving DecidableEq

/-- Keys of the optional `customFields` structure (`None` before any
custom field exists). -/
def cfKeys : Option (List (String × α)) → List String
  | none => []
  | some l => l.map Prod.fst

/-- `CustomFields.setCustomField` (base/custom_fields.py lines 16-39):
gate on the allowed-key list (`isCustomFieldAllowed`, which for a
workitem is membership of the server-reported custom key list); when
allowed, either create the structure with the single entry, update the
value of the first entry carrying the key (`next(...)` followed by
`custom_field.value = value`), or append a new entry; finally save the
entity. -/
def setCustomField (allowed : List String) (cf : Option (List (String × α)))
    (k : String) (v : α) : Except String (Option (List (String × α)) × List CFCall) :=
  if k ∈ allowed then
    match cf with
    | none => Except.ok (some [(k, v)], [CFCall.saveEntity])
    | some l =>
      match l.find? (fun p => p.1 == k) with
      | some _ => Except.ok (some (updateFirst l k v), [CFCall.saveEntity])
      | none => Except.ok (some (l ++ [(k, v)]), [CFCall.saveEntity])
  else Except.error "key is not allowed for this workitem"

/-- Iterated `setCustomField` calls, threading the structure. -/
def applySets (allowed : List String) :
    Option (List (String × α)) → List (String × α) →
      Except String (Option (List (String × α)))
  | cf, [] => Except.ok cf
  | cf, (k, v) :: rest =>
    match setCustomField allowed cf k v with
    | Except.error e => Except.error e
    | Except.ok (cf2, _) => applySets allowed cf2 rest

theorem find_key_eq_none {l : List (String × α)} {k : String} :
    l.find? (fun p => p.1 == k) = none ↔ k ∉ l.map Prod.fst := by
  rw [List.find?_eq_none]
  constructor
  · intro h hmem
    rcases List.mem_map.mp hmem with ⟨p, hp, hpk⟩
    exact h p hp (by simp [hpk])
  · intro h p hp hpk
    rw [beq_iff_eq] at hpk
    exact h (List.mem_map.mpr ⟨p, hp, hpk⟩)

theorem find_updateFirst {l : List (String × α)} {k : String} {v : α}
    (h : k ∈ l.map Prod.fst) :
    ((updateFirst l k v).find? (fun p => p.1 == k)).map Prod.snd = some v := by
  induction l with
  | nil => cases h
  | cons p rest ih =>
    rw [List.map_cons, List.mem_cons] at h
    by_cases hp : p.1 = k
    · simp only [updateFirst, if_pos hp]
      rw [List.find?_cons_of_pos _ (by simp [hp])]
      rfl
    · have hk : k ∈ rest.map Prod.fst := by
        rcases h with h | h
        · exact absurd h.symm hp
        · exact h
      simp only [updateFirst, if_neg hp]
      rw [List.find?_cons_of_neg _ (by simp [hp])]
      exact ih hk

theorem find_append_new {l : List (String × α)} {k : String} {v : α}
    (h : k ∉ l.map Prod.fst) :
    ((l ++ [(k, v)]).find? (fun p => p.1 == k)).map Prod.snd = some v := by
  induction l with
  | nil =>
    rw [List.nil_append, List.find?_cons_of_pos _ (by simp)]
    rfl
  | cons p rest ih =>
    rw [List.map_cons, List.mem_cons] at h
    push_neg at h
    rw [List.cons_append, List.find?_cons_of_neg _ (by simp; exact fun e => h.1 e.symm)]
    exact ih h.2

theorem length_updateFirst (l : List (String × α)) (k : String) (v : α) :
    (updateFirst l k v).length = l.length := by
  induction l with
  | nil => rfl
  | cons p rest ih =>
    by_cases hp : p.1 = k
    · simp [updateFirst, hp]
    · simp [updateFirst, hp, ih]

theorem setCustomField_notAllowed_eq {allowed : List String} {k : String} (hk : k ∉ allowed)
    (cf : Option (List (String × α))) (v : α) :
    setCustomField allowed cf k v = Except.error "key is not allowed for this workitem" := by
  simp [setCustomField, hk]

theorem setCustomField_none_eq {allowed : List String} {k : String} (hk : k ∈ allowed) (v : α) :
    setCustomField allowed none k v = Except.ok (some [(k, v)], [CFCall.saveEntity]) := by
  simp [setCustomField, hk]

theorem setCustomField_update_eq {allowed : List String} {k : String} (hk : k ∈ allowed)
    {l : List (String × α)} {p : String × α}
    (hf : l.find? (fun q => q.1 == k) = some p) (v : α) :
    setCustomField allowed (some l) k v =
      Except.ok (some (updateFirst l k v), [CFCall.saveEntity]) := by
  simp [setCustomField, hk, hf]

theorem setCustomField_append_eq {allowed : List String} {k : String} (hk : k ∈ allowed)
    {l : List (String × α)} (hf : l.find? (fun q => q.1 == k) = none) (v : α) :
    setCustomField allowed (some l) k v =
      Except.ok (some (l ++ [(k, v)]), [CFCall.saveEntity]) := by
  simp [setCustomField, hk, hf]

theorem setCustomField_nodup {allowed : List String} {cf : Option (List (String × α))}
    {k : String} {v : α} {cf2 : Option (List (String × α))} {tr : List CFCall}
    (hnd : (cfKeys cf).Nodup)
    (h : setCustomField allowed cf k v = Except.ok (cf2, tr)) : (cfKeys cf2).Nodup := by
  by_cases hk : k ∈ allowed
  · cases cf with
    | none =>
      rw [setCustomField_none_eq hk] at h
      injection h with h
      injection h with h1 h2
      subst h1
      simp [cfKeys]
    | some l =>
      cases hfind : l.find? (fun p => p.1 == k) with
      | some p =>
        rw [setCustomField_update_eq hk hfind] at h
        injection h with h
        injection h with h1 h2
        subst h1
        have hkeq : (updateFirst l k v).map Prod.fst = l.map Prod.fst :=
          dkeys_updateFirst l k v
        simpa [cfKeys, hkeq] using hnd
      | none =>
        rw [setCustomField_append_eq hk hfind] at h
        injection h with h
        injection h with h1 h2
        subst h1
        have hnotin : k ∉ l.map Prod.fst := find_key_eq_none.mp hfind
        simp only [cfKeys, List.map_append, List.map_cons, List.map_nil] at hnd ⊢
        rw [List.nodup_append]
        refine ⟨hnd, List.nodup_singleton k, ?_⟩
        intro a ha hb
        rw [List.mem_singleton] at hb
        exact hnotin (hb ▸ ha)
  · rw [setCustomField_notAllowed_eq hk] at h
    cases h

theorem applySets_nodup {allowed : List String} {ops : List (String × α)}
    {cf cf2 : Option (List (String × α))} (hnd : (cfKeys cf).Nodup)
    (h : applySets allowed cf ops = Except.ok cf2) : (cfKeys cf2).Nodup := by
  induction ops generalizing cf with
  | nil =>
    simp only [applySets] at h
    injection h with h
    exact h ▸ hnd
  | cons op rest ih =>
    obtain ⟨k, v⟩ := op
    simp only [applySets] at h
    cases hset : setCustomField allowed cf k v with
    | error e =>
      rw [hset] at h
      cases h
    | ok r =>
      obtain ⟨cfm, tr⟩ := r
      rw [hset] at h
      exact ih (setCustomField_nodup hnd hset) h

/-- Claim C6: `setCustomField(key, value)` on a key outside the allowed
list fails before any network effect and before touching the local
structure; on an allowed key the custom-field structure is created or
updated so that the key now carries the value, and the entity is
saved. -/
theorem setCustomField_gate (allowed : List String) (cf : Option (List (String × α)))
    (k : String) (v : α) :
    (k ∉ allowed →
      setCustomField allowed cf k v = Except.error "key is not allowed for this workitem") ∧
    (k ∈ allowed → ∃ l2, setCustomField allowed cf k v =
        Except.ok (some l2, [CFCall.saveEntity]) ∧
      (l2.find? (fun p => p.1 == k)).map Prod.snd = some v) := by
  constructor
  · intro hk
    exact setCustomField_notAllowed_eq hk cf v
  · intro hk
    cases cf with
    | none =>
      refine ⟨[(k, v)], setCustomField_none_eq hk v, ?_⟩
      rw [List.find?_cons_of_pos _ (by simp)]
      rfl
    | some l =>
      cases hfind : l.find? (fun p => p.1 == k) with
      | some p =>
        have hmem : k ∈ l.map Prod.fst := by
          by_contra hno
          rw [find_key_eq_none.mpr hno] at hfind
          cases hfind
        exact ⟨updateFirst l k v, setCustomField_update_eq hk hfind v, find_updateFirst hmem⟩
      | none =>
        have hno : k ∉ l.map Prod.fst := find_key_eq_none.mp hfind
        exact ⟨l ++ [(k, v)], setCustomField_append_eq hk hfind v, find_append_new hno⟩

theorem setCustomField_gate_witness :
    (("x" : String) ∉ ["a"] ∧
      setCustomField ["a"] (none : Option (List (String × Nat))) "x" 5 =
        Except.error "key is not allowed for this workitem") ∧
    (("a" : String) ∈ ["a"] ∧
      ∃ l2, setCustomField ["a"] (none : Option (List (String × Nat))) "a" 5 =
          Except.ok (some l2, [CFCall.saveEntity]) ∧
        (l2.find? (fun p => p.1 == "a")).map Prod.snd = some 5) :=
  ⟨⟨by decide, (setCustomField_gate ["a"] none "x" 5).1 (by decide)⟩,
    ⟨by decide, (setCustomField_gate ["a"] none "a" 5).2 (by decide)⟩⟩

/-- Claim C10: starting from the fresh structure, any sequence of
`setCustomField` calls keeps the custom-field keys unique; a set on a
present key rewrites that entry in place (same keys, same length), and a
set on a new key appends exactly one entry. -/
theorem customFields_keys_unique (allowed : List String) :
    (∀ ops : List (String × α), ∀ cf2, applySets allowed none ops = Except.ok cf2 →
      (cfKeys cf2).Nodup) ∧
    (∀ (l : List (String × α)) (k : String) (v : α), k ∈ allowed → k ∈ l.map Prod.fst →
      setCustomField allowed (some l) k v =
        Except.ok (some (updateFirst l k v), [CFCall.saveEntity]) ∧
      (updateFirst l k v).map Prod.fst = l.map Prod.fst ∧
      (updateFirst l k v).length = l.length) ∧
    (∀ (l : List (String × α)) (k : String) (v : α), k ∈ allowed → k ∉ l.map Prod.fst →
      setCustomField allowed (some l) k v =
        Except.ok (some (l ++ [(k, v)]), [CFCall.saveEntity])) := by
  refine ⟨?_, ?_, ?_⟩
  · intro ops cf2 h
    exact applySets_nodup (by simp [cfKeys]) h
  · intro l k v hk hmem
    have hfind : l.find? (fun p => p.1 == k) ≠ none := by
      intro hnone
      exact (find_key_eq_none.mp hnone) hmem
    cases hf : l.find? (fun p => p.1 == k) with
    | none => exact absurd hf hfind
    | some p =>
      exact ⟨setCustomField_update_eq hk hf v, dkeys_updateFirst l k v,
        length_updateFirst l k v⟩
  · intro l k v hk hno
    exact setCustomField_append_eq hk (find_key_eq_none.mpr hno) v

theorem customFields_keys_unique_witness :
    (applySets ["a", "b"] (none : Option (List (String × Nat))) [("a", 1), ("b", 2), ("a", 3)] =
        Except.ok (some [("a", 3), ("b", 2)]) ∧
      (cfKeys (some [("a", 3), ("b", 2)] : Option (List (String × Nat)))).Nodup) ∧
    (("b" : String) ∈ ["a", "b"] ∧ ("b" : String) ∉ ([("a", (1 : Nat))].map Prod.fst) ∧
      setCustomField ["a", "b"] (some [("a", 1)]) "b" 2 =
        Except.ok (some [("a", 1), ("b", 2)], [CFCall.saveEntity])) :=
  ⟨⟨by rfl,
      (customFields_keys_unique ["a", "b"]).1 [("a", 1), ("b", 2), ("a", 3)]
        (some [("a", 3), ("b", 2)]) (by rfl)⟩,
    ⟨by decide, by decide,
      (customFields_keys_unique ["a", "b"]).2.2 [("a", 1)] "b" 2 (by decide) (by decide)⟩⟩

end CustomFieldsModel

section Converter

/-- Element tree produced by re-parsing a table slice
(`xml.etree.ElementTree.XML`): a tag, the text preceding the first
child, and the child elements. -/
inductive Xml where
  | elem (tag : String) (text : Option String) (children : List Xml)

def Xml.textOf : Xml → Option String
  | Xml.elem _ tx _ => tx

mutual

/-- `element.iter(tag)`: the elements carrying the given tag, in
document order, the element itself included. -/
def Xml.iterTag (t : String) : Xml → List Xml
  | Xml.elem tg tx cs =>
    (if tg = t then [Xml.elem tg tx cs] else []) ++ Xml.iterTagList t cs

def Xml.iterTagList (t : String) : List Xml → List Xml
  | [] => []
  | c :: rest => Xml.iterTag t c ++ Xml.iterTagList t rest

end

/-- One row of the 2D grid built by `_handle_table`: the texts of the
`th` elements of the row followed by the texts of its `td` elements. -/
def rowCells (tr : Xml) : List (Option String) :=
  (Xml.iterTag "th" tr).map Xml.textOf ++ (Xml.iterTag "td" tr).map Xml.textOf

/-- The 2D grid `content` built by `_handle_table`: one row per `tr`
element of the parsed slice, in document order. -/
def tableGrid (tree : Xml) : List (List (Option String)) :=
  (Xml.iterTag "tr" tree).map rowCells

/-- The raw-line slice
`table_content[self._table_start[0] - 1:self._table_end[0]]` joined by
`''.join(correct_lines)`. -/
def tableSlice (raw : String) (startLine endLine : Nat) : String :=
  String.join (((raw.splitOn "\n").drop (startLine - 1)).take (endLine - (startLine - 1)))

/-- External collaborators of `DescriptionParser`: the optional project
(the long-form link resolver, `str(project.getWorkitem(id))`, whose
display string is `id: title`), the XML re-parser (`ElementTree.XML`,
`none` when the slice is not well formed), and the grid renderer
(`Texttable().add_rows(content).draw()`). -/
structure ConvEnv where
  proj : Option (String → String)
  xmlOf : String → Option Xml
  draw : List (List (Option String)) → String

/-- Parser state: `_data`, `_table_start`, `_table_end`, and the raw fed
text accumulated by the underlying scanner. -/
structure PState where
  pdata : String
  tableStart : Option Nat
  tableEnd : Option Nat
  rawdata : String
deriving DecidableEq

/-- Freshly constructed parser state. -/
def initPS : PState :=
  { pdata := "", tableStart := none, tableEnd := none, rawdata := "" }

/-- `DescriptionParser.reset`: clears `_data`, `_table_start`,
`_table_end`, and (through the base scanner reset) the raw buffer. -/
def resetPS (_s : PState) : PState := initPS

/-- One scanner token, with the line number `getpos()` reports for it.
The tokenization itself is done by the standard-library scanner, which is
external to this repository. -/
inductive HEvent where
  | textData (s : String)
  | startTag (tag : String) (attrs : List (String × String)) (line : Nat)
  | endTag (tag : String) (line : Nat)
deriving DecidableEq

/-- The attribute dict built at the top of `handle_starttag` (a later
duplicate attribute overwrites an earlier one). -/
def attrGet (attrs : List (String × String)) (k : String) : Option String :=
  (attrs.reverse.find? (fun p => p.1 == k)).map Prod.snd

/-- `_handle_polarion_rte_link`: short mode, or long mode with no project
attached, appends the bare item id; otherwise the project resolver is
called on the item id and its display string is appended.  A missing
attribute, or the resolver path with no project, raises (`none`). -/
def handleRteLink (env : ConvEnv) (attrs : List (String × String)) (s : PState) :
    Option PState :=
  match attrGet attrs "data-option-id", attrGet attrs "data-item-id" with
  | some mode, some itemId =>
    if mode = "short" ∨ (mode = "long" ∧ env.proj.isNone = true) then
      some { s with pdata := s.pdata ++ itemId }
    else
      match env.proj with
      | some f => some { s with pdata := s.pdata ++ f itemId }
      | none => none
  | _, _ => none

/-- `_handle_polarion_rte_formula`: appends the formula source text. -/
def handleRteFormula (attrs : List (String × String)) (s : PState) : Option PState :=
  match attrGet attrs "data-source" with
  | some src => some { s with pdata := s.pdata ++ src }
  | none => none

/-- `_handle_table`: record the end position, slice the raw lines from
table start to table end, re-parse the slice, walk the grid, append the
rendered table, and clear the table-mode state.  Reaching the end tag
with no recorded start, or a slice that does not parse, raises. -/
def handleTableEnd (env : ConvEnv) (endLine : Nat) (s : PState) : Option PState :=
  match s.tableStart with
  | none => none
  | some startLine =>
    match env.xmlOf (tableSlice s.rawdata startLine endLine) with
    | none => none
    | some tree =>
      some { s with pdata := s.pdata ++ env.draw (tableGrid tree),
                    tableStart := none, tableEnd := none }

/-- Dispatch of one scanner token to `handle_data`, `handle_starttag`
and `handle_endtag`. -/
def step (env : ConvEnv) (s : PState) : HEvent → Option PState
  | HEvent.textData d =>
    some (if s.tableStart = none then { s with pdata := s.pdata ++ d } else s)
  | HEvent.startTag tag attrs line =>
    if tag = "span" then
      match attrGet attrs "class" with
      | some c =>
        if c = "polarion-rte-link" then handleRteLink env attrs s
        else if c = "polarion-rte-formula" then handleRteFormula attrs s
        else some s
      | none => some s
    else if tag = "table" then some { s with tableStart := some line }
    else some s
  | HEvent.endTag tag line =>
    if tag = "table" then handleTableEnd env line s else some s

/-- Process a token list, stopping at the first raised exception. -/
def runEvents (env : ConvEnv) (s : PState) : List HEvent → Option PState
  | [] => some s
  | e :: rest =>
    match step env s e with
    | none => none
    | some s2 => runEvents env s2 rest

/-- An input document: its text together with its scanner tokens. -/
structure HDoc where
  text : String
  events : List HEvent

/-- `HTMLParser.feed`: append the text to the raw buffer, then run the
token handlers over the tokens of the new text. -/
def feed (env : ConvEnv) (s : PState) (doc : HDoc) : Option PState :=
  runEvents env { s with rawdata := s.rawdata ++ doc.text } doc.events

theorem step_span_eq_handleRteLink (env : ConvEnv) (s : PState)
    (attrs : List (String × String)) (line : Nat)
    (hc : attrGet attrs "class" = some "polarion-rte-link") :
    step env s (HEvent.startTag "span" attrs line) = handleRteLink env attrs s := by
  simp [step, hc]

theorem step_span_link_bare (env : ConvEnv) (s : PState) (attrs : List (String × String))
    (mode itemId : String) (line : Nat)
    (hc : attrGet attrs "class" = some "polarion-rte-link")
    (hm : attrGet attrs "data-option-id" = some mode)
    (hi : attrGet attrs "data-item-id" = some itemId)
    (h : mode = "short" ∨ (mode = "long" ∧ env.proj = none)) :
    step env s (HEvent.startTag "span" attrs line) =
      some { s with pdata := s.pdata ++ itemId } := by
  have hcond : mode = "short" ∨ (mode = "long" ∧ env.proj.isNone = true) := by
    rcases h with h | ⟨h1, h2⟩
    · exact Or.inl h
    · exact Or.inr ⟨h1, by rw [h2]; rfl⟩
  rw [step_span_eq_handleRteLink env s attrs line hc]
  simp only [handleRteLink, hm, hi]
  rw [if_pos hcond]

theorem step_span_link_resolved (env : ConvEnv) (s : PState)
    (attrs : List (String × String)) (itemId : String) (line : Nat) (f : String → String)
    (hc : attrGet attrs "class" = some "polarion-rte-link")
    (hm : attrGet attrs "data-option-id" = some "long")
    (hi : attrGet attrs "data-item-id" = some itemId)
    (hp : env.proj = some f) :
    step env s (HEvent.startTag "span" attrs line) =
      some { s with pdata := s.pdata ++ f itemId } := by
  rw [step_span_eq_handleRteLink env s attrs line hc]
  simp only [handleRteLink, hm, hi]
  rw [hp]
  simp

theorem step_span_formula (env : ConvEnv) (s : PState) (attrs : List (String × String))
    (src : String) (line : Nat)
    (hc : attrGet attrs "class" = some "polarion-rte-formula")
    (hs : attrGet attrs "data-source" = some src) :
    step env s (HEvent.startTag "span" attrs line) =
      some { s with pdata := s.pdata ++ src } := by
  simp [step, hc, handleRteFormula, hs]

/-- Claim C7: for a span start tag whose class marks a cross-reference,
display mode `short`, or `long` with no resolver attached, appends the
bare target identifier to the output; mode `long` with a resolver
attached calls the resolver on the target identifier and appends its
display string instead. -/
theorem rteLink_display_modes (env : ConvEnv) (s : PState)
    (attrs : List (String × String)) (mode itemId : String) (line : Nat)
    (hc : attrGet attrs "class" = some "polarion-rte-link")
    (hm : attrGet attrs "data-option-id" = some mode)
    (hi : attrGet attrs "data-item-id" = some itemId) :
    (mode = "short" ∨ (mode = "long" ∧ env.proj = none) →
      step env s (HEvent.startTag "span" attrs line) =
        some { s with pdata := s.pdata ++ itemId }) ∧
    (∀ f, mode = "long" → env.proj = some f →
      step env s (HEvent.startTag "span" attrs line) =
        some { s with pdata := s.pdata ++ f itemId }) := by
  constructor
  · intro h
    exact step_span_link_bare env s attrs mode itemId line hc hm hi h
  · intro f hmode hp
    subst hmode
    exact step_span_link_resolved env s attrs itemId line f hc hm hi hp

/-- The attribute set of a short-mode cross-reference span. -/
def spanAttrsShort : List (String × String) :=
  [("class", "polarion-rte-link"), ("data-option-id", "short"), ("data-item-id", "WI-5")]

/-- The attribute set of a long-mode cross-reference span. -/
def spanAttrsLong : List (String × String) :=
  [("class", "polarion-rte-link"), ("data-option-id", "long"), ("data-item-id", "WI-5")]

/-- Converter with no project attached. -/
def envNoProj : ConvEnv :=
  { proj := none, xmlOf := fun _ => none, draw := fun _ => "" }

/-- Converter whose project resolves `WI-5` to its display string. -/
def envWithProj : ConvEnv :=
  { proj := some (fun i => i ++ ": Fix login bug"), xmlOf := fun _ => none,
    draw := fun _ => "" }

theorem rteLink_display_modes_witness :
    (attrGet spanAttrsShort "class" = some "polarion-rte-link" ∧
      attrGet spanAttrsShort "data-option-id" = some "short" ∧
      attrGet spanAttrsShort "data-item-id" = some "WI-5" ∧
      step envNoProj initPS (HEvent.startTag "span" spanAttrsShort 1) =
        some { initPS with pdata := initPS.pdata ++ "WI-5" }) ∧
    (attrGet spanAttrsLong "data-option-id" = some "long" ∧
      step envWithProj initPS (HEvent.startTag "span" spanAttrsLong 1) =
        some { initPS with pdata := initPS.pdata ++ ("WI-5" ++ ": Fix login bug") }) :=
  ⟨⟨rfl, rfl, rfl,
      (rteLink_display_modes envNoProj initPS spanAttrsShort "short" "WI-5" 1
        rfl rfl rfl).1 (Or.inl rfl)⟩,
    ⟨rfl,
      (rteLink_display_modes envWithProj initPS spanAttrsLong "long" "WI-5" 1
        rfl rfl rfl).2 (fun i => i ++ ": Fix login bug") rfl rfl⟩⟩

/-- The raw single-line document of the table counterexample: a table
whose only cell holds a short cross-reference span. -/
def rawTbl : String :=
  "<table><tr><td><span class=\"polarion-rte-link\" data-option-id=\"short\" data-item-id=\"WI-5\"></span></td></tr></table>"

/-- The scanner tokens of `rawTbl`. -/
def eventsTbl : List HEvent :=
  [HEvent.startTag "table" [] 1, HEvent.startTag "tr" [] 1, HEvent.startTag "td" [] 1,
   HEvent.startTag "span" spanAttrsShort 1, HEvent.endTag "span" 1, HEvent.endTag "td" 1,
   HEvent.endTag "tr" 1, HEvent.endTag "table" 1]

/-- The element tree `ElementTree.XML` yields for the slice of `rawTbl`:
a table with one row holding one cell that contains the span. -/
def treeTbl : Xml :=
  Xml.elem "table" none [Xml.elem "tr" none [Xml.elem "td" none [Xml.elem "span" none []]]]

/-- Environment of the table counterexample: the re-parser returns
`treeTbl` for the slice and the renderer draws the grid as `GRID`. -/
def envLeak : ConvEnv :=
  { proj := none, xmlOf := fun _ => some treeTbl, draw := fun _ => "GRID" }

def docTbl : HDoc := { text := rawTbl, events := eventsTbl }

/-- Claim C8 counterexample: converting `rawTbl` appends `WI-5` — output
produced by a cross-reference span sitting inside the table — before the
rendered grid, so the buffer does not receive only the rendered grid for
the table span of the input. -/
theorem table_span_leak_cex :
    (feed envLeak initPS docTbl).map PState.pdata =
      some ("WI-5" ++ envLeak.draw (tableGrid treeTbl)) ∧
    envLeak.draw (tableGrid treeTbl) = "GRID" ∧
    ("WI-5" ++ envLeak.draw (tableGrid treeTbl) : String) ≠ envLeak.draw (tableGrid treeTbl) :=
  ⟨by decide, rfl, by decide⟩

/-- Claim C8 amended: between a table start tag and its end tag, text
data is suppressed, but the output of special span tags encountered
inside the table — cross-reference spans in bare mode, cross-reference
spans in resolver mode, and formula spans — is still appended to the
buffer; at the matching end tag the rendering of the grid parsed from the
sliced raw lines is appended and the table-mode state is cleared. -/
theorem table_mode_amended (env : ConvEnv) (s : PState) (startL : Nat)
    (hin : s.tableStart = some startL) :
    (∀ d, step env s (HEvent.textData d) = some s) ∧
    (∀ attrs mode itemId line,
      attrGet attrs "class" = some "polarion-rte-link" →
      attrGet attrs "data-option-id" = some mode →
      attrGet attrs "data-item-id" = some itemId →
      (mode = "short" ∨ (mode = "long" ∧ env.proj = none)) →
      step env s (HEvent.startTag "span" attrs line) =
        some { s with pdata := s.pdata ++ itemId }) ∧
    (∀ attrs itemId line f,
      attrGet attrs "class" = some "polarion-rte-link" →
      attrGet attrs "data-option-id" = some "long" →
      attrGet attrs "data-item-id" = some itemId →
      env.proj = some f →
      step env s (HEvent.startTag "span" attrs line) =
        some { s with pdata := s.pdata ++ f itemId }) ∧
    (∀ attrs src line,
      attrGet attrs "class" = some "polarion-rte-formula" →
      attrGet attrs "data-source" = some src →
      step env s (HEvent.startTag "span" attrs line) =
        some { s with pdata := s.pdata ++ src }) ∧
    (∀ endL tree, env.xmlOf (tableSlice s.rawdata startL endL) = some tree →
      step env s (HEvent.endTag "table" endL) =
        some { s with pdata := s.pdata ++ env.draw (tableGrid tree),
                      tableStart := none, tableEnd := none }) := by
  refine ⟨?_, ?_, ?_, ?_, ?_⟩
  · intro d
    simp [step, hin]
  · intro attrs mode itemId line hc hm hi h
    exact step_span_link_bare env s attrs mode itemId line hc hm hi h
  · intro attrs itemId line f hc hm hi hp
    exact step_span_link_resolved env s attrs itemId line f hc hm hi hp
  · intro attrs src line hc hs
    exact step_span_formula env s attrs src line hc hs
  · intro endL tree htree
    simp [step, handleTableEnd, hin, htree]

/-- A parser state inside table mode. -/
def tableStateEx : PState :=
  { pdata := "", tableStart := some 1, tableEnd := none, rawdata := "<table></table>" }

/-- Environment whose re-parser yields an empty table element and whose
project resolves an item id to its display string. -/
def envTbl : ConvEnv :=
  { proj := some (fun i => i ++ ": T"), xmlOf := fun _ => some (Xml.elem "table" none []),
    draw := fun _ => "T" }

/-- The attribute set of a formula span. -/
def spanAttrsFormula : List (String × String) :=
  [("class", "polarion-rte-formula"), ("data-source", "x+y")]

theorem table_mode_amended_witness :
    (tableStateEx.tableStart = some 1 ∧ envTbl.proj = some (fun i => i ++ ": T") ∧
      envTbl.xmlOf (tableSlice tableStateEx.rawdata 1 1) = some (Xml.elem "table" none [])) ∧
    step envTbl tableStateEx (HEvent.textData "x") = some tableStateEx ∧
    step envTbl tableStateEx (HEvent.startTag "span" spanAttrsShort 1) =
      some { tableStateEx with pdata := tableStateEx.pdata ++ "WI-5" } ∧
    step envTbl tableStateEx (HEvent.startTag "span" spanAttrsLong 1) =
      some { tableStateEx with pdata := tableStateEx.pdata ++ ("WI-5" ++ ": T") } ∧
    step envTbl tableStateEx (HEvent.startTag "span" spanAttrsFormula 1) =
      some { tableStateEx with pdata := tableStateEx.pdata ++ "x+y" } ∧
    step envTbl tableStateEx (HEvent.endTag "table" 1) =
      some { tableStateEx with
        pdata := tableStateEx.pdata ++ envTbl.draw (tableGrid (Xml.elem "table" none [])),
        tableStart := none, tableEnd := none } :=
  ⟨⟨rfl, rfl, rfl⟩,
    (table_mode_amended envTbl tableStateEx 1 rfl).1 "x",
    (table_mode_amended envTbl tableStateEx 1 rfl).2.1 spanAttrsShort "short" "WI-5" 1
      rfl rfl rfl (Or.inl rfl),
    (table_mode_amended envTbl tableStateEx 1 rfl).2.2.1 spanAttrsLong "WI-5" 1
      (fun i => i ++ ": T") rfl rfl rfl rfl,
    (table_mode_amended envTbl tableStateEx 1 rfl).2.2.2.1 spanAttrsFormula "x+y" 1 rfl rfl,
    (table_mode_amended envTbl tableStateEx 1 rfl).2.2.2.2 1 (Xml.elem "table" none []) rfl⟩

/-- A one-character input document. -/
def docOneChar : HDoc := { text := "a", events := [HEvent.textData "a"] }

/-- The parser state after one conversion of `docOneChar` from fresh. -/
def fedOnce : Option PState := feed envNoProj initPS docOneChar

/-- Claim C9 counterexample: the converter instance keeps state across
invocations — converting the one-character document from a fresh instance
yields `a`, while converting the same document again on the same instance
without a reset yields `aa`: the output depends on what the instance
processed before. -/
theorem converter_state_cex :
    (feed envNoProj initPS docOneChar).map PState.pdata = some "a" ∧
    (fedOnce.bind (fun s => feed envNoProj s docOneChar)).map PState.pdata = some "aa" ∧
    ("aa" : String) ≠ "a" :=
  ⟨by decide, by decide, by decide⟩

/-- Claim C9 amended: the parser retains its buffer and table state
across `feed` calls; it is `reset()` that restores the freshly
constructed state, so a conversion run after a reset coincides with the
conversion performed by a fresh instance, independent of any prior
processing. -/
theorem reset_restores_freshness (env : ConvEnv) (s : PState) (doc : HDoc) :
    resetPS s = initPS ∧ feed env (resetPS s) doc = feed env initPS doc :=
  ⟨rfl, rfl⟩

end Converter

end Spec2Proof
